import Mathlib

/-!
Shallow embedding of `unchess_lib/src/enums.rs`: the chess domain enumerations,
the `AmbiguousMove` model, and its PGN text codec.  Strings are modelled as
`List Char`.  The coordinate primitives (`notation::file_to_char`,
`notation::rank_to_char`), the square type (`simple_types::SimpleSquare`), the
error type (`error::ChessError`) and the PGN grammar (`parser::pgn::chess_move`)
live in modules that are not part of the sources at hand; they are modelled from
the specification, as noted on each such definition.
-/

/-- Colour of a piece (`PieceColour` in `enums.rs`). -/
inductive PieceColour where
  | Black
  | White
deriving DecidableEq, Fintype, Repr

/-- `impl Not for PieceColour`: logical negation swapping the colours. -/
def PieceColour.not : PieceColour → PieceColour
  | .Black => .White
  | .White => .Black

/-- Type of a piece (`PieceKind` in `enums.rs`), in declaration order. -/
inductive PieceKind where
  | King
  | Queen
  | Bishop
  | Knight
  | Rook
  | Pawn
deriving DecidableEq, Fintype, Repr

/-- Basic states of the board based on king safety (`BoardState` in `enums.rs`). -/
inductive BoardState where
  | Normal
  | Check
  | Stalemate
  | Checkmate
deriving DecidableEq, Fintype, Repr

/-- Action caused by a move (`MoveAction` in `enums.rs`). -/
inductive MoveAction where
  | Check
  | Checkmate
deriving DecidableEq, Fintype, Repr

/-- Side to castle on (`CastlingSide` in `enums.rs`). -/
inductive CastlingSide where
  | KingSide
  | QueenSide
deriving DecidableEq, Fintype, Repr

/-- Modelled from the spec: the error type is defined in `error.rs`, which is
not among the sources; §7 requires the two discriminants that `enums.rs`
constructs, one carrying the offending text and one carrying the offending
board state. -/
inductive ChessError where
  | InvalidPGN (text : List Char)
  | NotAction (state : BoardState)
deriving DecidableEq, Repr

/-- `impl From<PieceKind> for char` in `enums.rs`. -/
def PieceKind.toChar : PieceKind → Char
  | .King => 'K'
  | .Queen => 'Q'
  | .Bishop => 'B'
  | .Knight => 'N'
  | .Rook => 'R'
  | .Pawn => 'P'

/-- `impl TryFrom<char> for PieceKind` in `enums.rs`; the Rust `match` on the
character literals is rendered as the equivalent first-match chain, and the
error carries the one-character string of the offending character
(`value.to_string()`). -/
def PieceKind.try_from (value : Char) : Except ChessError PieceKind :=
  if value = 'K' then .ok .King
  else if value = 'Q' then .ok .Queen
  else if value = 'B' then .ok .Bishop
  else if value = 'N' then .ok .Knight
  else if value = 'R' then .ok .Rook
  else if value = 'P' then .ok .Pawn
  else .error (.InvalidPGN [value])

/-- `impl From<MoveAction> for BoardState` in `enums.rs`. -/
def BoardState.from_action : MoveAction → BoardState
  | .Check => .Check
  | .Checkmate => .Checkmate

/-- `impl From<MoveAction> for char` in `enums.rs`. -/
def MoveAction.toChar : MoveAction → Char
  | .Check => '+'
  | .Checkmate => '#'

/-- `impl TryFrom<BoardState> for MoveAction` in `enums.rs`: defined on
`Check` and `Checkmate`, the catch-all arm fails carrying the input state. -/
def MoveAction.try_from (value : BoardState) : Except ChessError MoveAction :=
  match value with
  | .Check => .ok .Check
  | .Checkmate => .ok .Checkmate
  | _ => .error (.NotAction value)

/-- `CastlingSide::as_str` in `enums.rs`. -/
def CastlingSide.as_str : CastlingSide → List Char
  | .QueenSide => ['O', '-', 'O', '-', 'O']
  | .KingSide => ['O', '-', 'O']

/-- Modelled from the spec: `notation::file_to_char` is not among the sources;
§6 makes it total on the range 0–7 and failing outside it, with file `a` at
index 0. -/
def file_to_char : Nat → Option Char
  | 0 => some 'a'
  | 1 => some 'b'
  | 2 => some 'c'
  | 3 => some 'd'
  | 4 => some 'e'
  | 5 => some 'f'
  | 6 => some 'g'
  | 7 => some 'h'
  | _ => none

/-- Modelled from the spec: `notation::rank_to_char` is not among the sources;
§6 and the `Kx9` scenario of §8 make it total on 0–7 with rank digit `1` at
index 0. -/
def rank_to_char : Nat → Option Char
  | 0 => some '1'
  | 1 => some '2'
  | 2 => some '3'
  | 3 => some '4'
  | 4 => some '5'
  | 5 => some '6'
  | 6 => some '7'
  | 7 => some '8'
  | _ => none

/-- The file letter of an in-range file index: the total restriction of
`file_to_char` to `Fin 8`. -/
def file_char (i : Fin 8) : Char :=
  match i.val with
  | 0 => 'a'
  | 1 => 'b'
  | 2 => 'c'
  | 3 => 'd'
  | 4 => 'e'
  | 5 => 'f'
  | 6 => 'g'
  | _ => 'h'

/-- The rank digit of an in-range rank index: the total restriction of
`rank_to_char` to `Fin 8`. -/
def rank_char (i : Fin 8) : Char :=
  match i.val with
  | 0 => '1'
  | 1 => '2'
  | 2 => '3'
  | 3 => '4'
  | 4 => '5'
  | 5 => '6'
  | 6 => '7'
  | _ => '8'

/-- Modelled from the spec: `simple_types::SimpleSquare` is not among the
sources; §6 treats a square as an atomic value exposing a canonical lowercase
two-character text form, file letter then rank digit. -/
structure SimpleSquare where
  file : Fin 8
  rank : Fin 8
deriving DecidableEq, Repr

/-- Modelled from the spec: the square's canonical text form of §6, the file
letter followed by the rank digit. -/
def SimpleSquare.as_str (sq : SimpleSquare) : List Char :=
  [file_char sq.file, rank_char sq.rank]

/-- Ambiguous move in the PGN standard (`AmbiguousMove` in `enums.rs`);
`src_file` and `src_rank` are the `Option<u8>` disambiguation indices. -/
inductive AmbiguousMove where
  | Normal (piece_kind : PieceKind) (src_file : Option Nat) (src_rank : Option Nat)
      (takes : Bool) (dest : SimpleSquare) (promote_to : Option PieceKind)
      (action : Option MoveAction)
  | Castle (side : CastlingSide)
deriving DecidableEq, Repr

/-- One optional disambiguation field of `as_pgn_str`: nothing when absent,
the converted character when present, propagating the conversion's failure
(the `unwrap` panic of the source) as `none`. -/
def opt_conv (o : Option Nat) (conv : Nat → Option Char) : Option (List Char) :=
  match o with
  | none => some []
  | some v => (conv v).map (fun c => [c])

/-- The piece letter pushed by `as_pgn_str`: omitted exactly for a pawn. -/
def piece_str (k : PieceKind) : List Char :=
  if k = .Pawn then [] else [k.toChar]

/-- The capture marker pushed by `as_pgn_str`. -/
def takes_str (t : Bool) : List Char :=
  if t then ['x'] else []

/-- The promotion suffix pushed by `as_pgn_str`. -/
def promo_str : Option PieceKind → List Char
  | some pk => ['=', pk.toChar]
  | none => []

/-- The trailing action glyph pushed by `as_pgn_str`. -/
def action_str : Option MoveAction → List Char
  | some a => [a.toChar]
  | none => []

/-- `AmbiguousMove::as_pgn_str` in `enums.rs`: the pushes happen in source
order (piece letter unless pawn, source file, source rank, capture marker,
destination, promotion suffix, action glyph); the two `unwrap` calls on the
coordinate conversions are the only partiality, so their panic is modelled by
propagating `none`. -/
def AmbiguousMove.as_pgn_str : AmbiguousMove → Option (List Char)
  | .Castle side => some side.as_str
  | .Normal piece_kind src_file src_rank takes dest promote_to action =>
    (opt_conv src_file file_to_char).bind fun fs =>
    (opt_conv src_rank rank_to_char).bind fun rs =>
    some (piece_str piece_kind ++ fs ++ rs ++ takes_str takes ++ dest.as_str
      ++ promo_str promote_to ++ action_str action)

/-- `impl fmt::Display for AmbiguousMove` in `enums.rs`: it formats exactly
`self.as_pgn_str()`. -/
def AmbiguousMove.fmt_display (m : AmbiguousMove) : Option (List Char) :=
  m.as_pgn_str

/-- The §4.2 character decoding as an option, as the grammar consumes it. -/
def char_to_kind (c : Char) : Option PieceKind :=
  match PieceKind.try_from c with
  | .ok k => some k
  | .error _ => none

/-- Modelled from the spec: the file-character decoding of §6, inverse to
`file_to_char` on the 0–7 range. -/
def char_to_file : Char → Option (Fin 8)
  | 'a' => some 0
  | 'b' => some 1
  | 'c' => some 2
  | 'd' => some 3
  | 'e' => some 4
  | 'f' => some 5
  | 'g' => some 6
  | 'h' => some 7
  | _ => none

/-- Modelled from the spec: the rank-character decoding of §6, inverse to
`rank_to_char` on the 0–7 range. -/
def char_to_rank : Char → Option (Fin 8)
  | '1' => some 0
  | '2' => some 1
  | '3' => some 2
  | '4' => some 3
  | '5' => some 4
  | '6' => some 5
  | '7' => some 6
  | '8' => some 7
  | _ => none

/-- The promotable subset of §3: Queen, Rook, Bishop and Knight. -/
def promotable : PieceKind → Bool
  | .Queen => true
  | .Rook => true
  | .Bishop => true
  | .Knight => true
  | .King => false
  | .Pawn => false

/-- Modelled from the spec: the trailing-glyph step of the §4.5 grammar,
splitting off an optional final `+` or `#`. -/
def strip_action (s : List Char) : List Char × Option MoveAction :=
  match s.reverse with
  | [] => (s, none)
  | c :: rest =>
    if c = '+' then (rest.reverse, some .Check)
    else if c = '#' then (rest.reverse, some .Checkmate)
    else (s, none)

/-- Modelled from the spec: the promotion step of the §4.5 grammar, splitting
off an optional `=<letter>` suffix whose letter must decode via §4.2 and lie
in the promotable subset; an invalid letter fails the whole token. -/
def strip_promotion (s : List Char) : Option (List Char × Option PieceKind) :=
  match s.reverse with
  | c :: '=' :: rest =>
    match char_to_kind c with
    | some k => if promotable k then some (rest.reverse, some k) else none
    | none => none
  | _ => some (s, none)

/-- Modelled from the spec: the mandatory destination of the §4.5 grammar,
the final two characters decoded as a square via the external square-text
primitive; failure here is fatal to the whole token. -/
def split_square (s : List Char) : Option (List Char × SimpleSquare) :=
  match s.reverse with
  | r :: f :: rest =>
    match char_to_file f, char_to_rank r with
    | some fi, some ri => some (rest.reverse, ⟨fi, ri⟩)
    | _, _ => none
  | _ => none

/-- Modelled from the spec: the optional leading piece letter of the §4.5
grammar; absence implies a pawn. -/
def take_kind : List Char → PieceKind × List Char
  | [] => (.Pawn, [])
  | c :: rest =>
    match char_to_kind c with
    | some k => (k, rest)
    | none => (.Pawn, c :: rest)

/-- Modelled from the spec: the optional file disambiguation character of the
§4.5 grammar, validated against the 0–7 range. -/
def take_file : List Char → Option Nat × List Char
  | [] => (none, [])
  | c :: rest =>
    match char_to_file c with
    | some i => (some i.val, rest)
    | none => (none, c :: rest)

/-- Modelled from the spec: the optional rank disambiguation character of the
§4.5 grammar, validated against the 0–7 range. -/
def take_rank : List Char → Option Nat × List Char
  | [] => (none, [])
  | c :: rest =>
    match char_to_rank c with
    | some i => (some i.val, rest)
    | none => (none, c :: rest)

/-- Modelled from the spec: the optional `x` capture marker of the §4.5
grammar. -/
def take_x : List Char → Bool × List Char
  | 'x' :: rest => (true, rest)
  | s => (false, s)

/-- Modelled from the spec: the leading fields of a normal token in the §4.5
grammar — optional piece letter, then zero, one or two disambiguation
characters in file-then-rank order, then an optional capture marker; any
character left over fails the token. -/
def read_front (s : List Char) : Option (PieceKind × Option Nat × Option Nat × Bool) :=
  match take_kind s with
  | (k, s1) =>
    match take_file s1 with
    | (f, s2) =>
      match take_rank s2 with
      | (r, s3) =>
        match take_x s3 with
        | (t, s4) => if s4 = [] then some (k, f, r, t) else none

/-- Modelled from the spec: `parser::pgn::chess_move` is not among the
sources; this is the §4.5 decode grammar — strip an optional trailing action
glyph, match the queen-side castle text exactly and then the king-side text (a
trailing glyph on a castle token is accepted and discarded), otherwise parse a
normal token as promotion suffix, mandatory destination square and leading
fields, failing as a whole on any structural mismatch. -/
def chess_move (s : List Char) : Option AmbiguousMove :=
  match strip_action s with
  | (body, act) =>
    if body = CastlingSide.as_str .QueenSide then some (.Castle .QueenSide)
    else if body = CastlingSide.as_str .KingSide then some (.Castle .KingSide)
    else
      match strip_promotion body with
      | none => none
      | some (b2, promo) =>
        match split_square b2 with
        | none => none
        | some (b3, sq) =>
          match read_front b3 with
          | none => none
          | some (k, f, r, t) => some (.Normal k f r t sq promo act)

/-- `impl TryFrom<&str> for AmbiguousMove` in `enums.rs`: a successful parse
yields the move, anything else is `InvalidPGN` carrying the whole input. -/
def AmbiguousMove.try_from (value : List Char) : Except ChessError AmbiguousMove :=
  match chess_move value with
  | some m => .ok m
  | none => .error (.InvalidPGN value)

/-- The §3 field-presence invariants: in-range disambiguation indices and a
promotable promotion target. -/
def well_formed : AmbiguousMove → Bool
  | .Normal _ src_file src_rank _ _ promote_to _ =>
    src_file.all (fun v => decide (v ≤ 7)) && src_rank.all (fun v => decide (v ≤ 7))
      && promote_to.all promotable
  | .Castle _ => true

/-- The §3 range invariant alone: source disambiguation indices, when
present, lie in 0–7. -/
def src_in_range : AmbiguousMove → Bool
  | .Normal _ src_file src_rank _ _ _ _ =>
    src_file.all (fun v => decide (v ≤ 7)) && src_rank.all (fun v => decide (v ≤ 7))
  | .Castle _ => true

/-- Declaration index of the derived ordering on `PieceColour`. -/
def PieceColour.ord_val : PieceColour → Nat
  | .Black => 0
  | .White => 1

/-- Declaration index of the derived ordering on `PieceKind`. -/
def PieceKind.ord_val : PieceKind → Nat
  | .King => 0
  | .Queen => 1
  | .Bishop => 2
  | .Knight => 3
  | .Rook => 4
  | .Pawn => 5

/-- Declaration index of the derived ordering on `BoardState`. -/
def BoardState.ord_val : BoardState → Nat
  | .Normal => 0
  | .Check => 1
  | .Stalemate => 2
  | .Checkmate => 3

/-- Declaration index of the derived ordering on `MoveAction`. -/
def MoveAction.ord_val : MoveAction → Nat
  | .Check => 0
  | .Checkmate => 1

/-- Declaration index of the derived ordering on `CastlingSide`. -/
def CastlingSide.ord_val : CastlingSide → Nat
  | .KingSide => 0
  | .QueenSide => 1

/-! ## Character-level facts -/

theorem char_to_kind_toChar (k : PieceKind) : char_to_kind k.toChar = some k := by
  cases k <;> rfl

theorem file_to_char_val (i : Fin 8) : file_to_char i.val = some (file_char i) := by
  revert i; decide

theorem rank_to_char_val (i : Fin 8) : rank_to_char i.val = some (rank_char i) := by
  revert i; decide

theorem char_to_file_file_char (i : Fin 8) : char_to_file (file_char i) = some i := by
  revert i; decide

theorem char_to_rank_rank_char (i : Fin 8) : char_to_rank (rank_char i) = some i := by
  revert i; decide

theorem char_to_kind_file_char (i : Fin 8) : char_to_kind (file_char i) = none := by
  revert i; decide

theorem char_to_kind_rank_char (i : Fin 8) : char_to_kind (rank_char i) = none := by
  revert i; decide

theorem char_to_file_rank_char (i : Fin 8) : char_to_file (rank_char i) = none := by
  revert i; decide

theorem char_to_kind_x : char_to_kind 'x' = none := rfl

theorem char_to_file_x : char_to_file 'x' = none := rfl

theorem char_to_rank_x : char_to_rank 'x' = none := rfl

theorem toChar_ne_plus (k : PieceKind) : k.toChar ≠ '+' := by cases k <;> decide

theorem toChar_ne_hash (k : PieceKind) : k.toChar ≠ '#' := by cases k <;> decide

theorem toChar_ne_O (k : PieceKind) : k.toChar ≠ 'O' := by cases k <;> decide

theorem rank_char_ne_plus (i : Fin 8) : rank_char i ≠ '+' := by revert i; decide

theorem rank_char_ne_hash (i : Fin 8) : rank_char i ≠ '#' := by revert i; decide

theorem rank_char_ne_O (i : Fin 8) : rank_char i ≠ 'O' := by revert i; decide

theorem file_char_ne_eq_sign (i : Fin 8) : file_char i ≠ '=' := by revert i; decide

/-! ## Stage lemmas for the decode pipeline on encoded input -/

theorem strip_action_some (l : List Char) (a : MoveAction) :
    strip_action (l ++ [a.toChar]) = (l, some a) := by
  cases a <;> simp [strip_action, MoveAction.toChar, List.reverse_append]

theorem strip_action_last_ne (l : List Char) (c : Char) (h1 : c ≠ '+') (h2 : c ≠ '#') :
    strip_action (l ++ [c]) = (l ++ [c], none) := by
  simp [strip_action, List.reverse_append, h1, h2]

theorem strip_action_app (l : List Char) (c : Char) (h1 : c ≠ '+') (h2 : c ≠ '#')
    (a : Option MoveAction) :
    strip_action ((l ++ [c]) ++ action_str a) = (l ++ [c], a) := by
  cases a with
  | none => simpa [action_str] using strip_action_last_ne l c h1 h2
  | some x => simpa [action_str] using strip_action_some (l ++ [c]) x

theorem strip_promotion_some (l : List Char) (pk : PieceKind) (hp : promotable pk = true) :
    strip_promotion (l ++ ['=', pk.toChar]) = some (l, some pk) := by
  simp [strip_promotion, List.reverse_append, char_to_kind_toChar, hp]

theorem strip_promotion_no_suffix (l : List Char) (c1 c2 : Char) (h : c1 ≠ '=') :
    strip_promotion (l ++ [c1, c2]) = some (l ++ [c1, c2], none) := by
  unfold strip_promotion
  have hrev : (l ++ [c1, c2]).reverse = c2 :: c1 :: l.reverse := by simp
  rw [hrev]
  split
  · rename_i c rest heq
    cases heq
    exact absurd rfl h
  · rfl

theorem split_square_encode (l : List Char) (sq : SimpleSquare) :
    split_square (l ++ sq.as_str) = some (l, sq) := by
  obtain ⟨fi, ri⟩ := sq
  simp [split_square, SimpleSquare.as_str, List.reverse_append,
    char_to_file_file_char, char_to_rank_rank_char]

/-- The characters an in-range optional index contributes to the encoding. -/
def opt_fin_str (f : Fin 8 → Char) : Option (Fin 8) → List Char
  | none => []
  | some i => [f i]

theorem opt_conv_file (fo : Option (Fin 8)) :
    opt_conv (fo.map Fin.val) file_to_char = some (opt_fin_str file_char fo) := by
  cases fo <;> simp [opt_conv, opt_fin_str, file_to_char_val]

theorem opt_conv_rank (ro : Option (Fin 8)) :
    opt_conv (ro.map Fin.val) rank_to_char = some (opt_fin_str rank_char ro) := by
  cases ro <;> simp [opt_conv, opt_fin_str, rank_to_char_val]

theorem opt_nat_to_fin {f : Option Nat} (h : f.all (fun v => decide (v ≤ 7)) = true) :
    ∃ fo : Option (Fin 8), f = fo.map Fin.val := by
  cases f with
  | none => exact ⟨none, rfl⟩
  | some v =>
    simp [Option.all] at h
    exact ⟨some ⟨v, by omega⟩, rfl⟩

theorem read_front_encode (k : PieceKind) (fo ro : Option (Fin 8)) (t : Bool) :
    read_front (piece_str k ++ opt_fin_str file_char fo ++ opt_fin_str rank_char ro
      ++ takes_str t) = some (k, fo.map Fin.val, ro.map Fin.val, t) := by
  by_cases hk : k = .Pawn <;>
    cases fo <;> cases ro <;> cases t <;>
      simp [read_front, take_kind, take_file, take_rank, take_x,
        piece_str, opt_fin_str, takes_str, hk,
        char_to_kind_toChar, char_to_kind_file_char, char_to_kind_rank_char,
        char_to_file_file_char, char_to_file_rank_char, char_to_rank_rank_char,
        char_to_kind_x, char_to_file_x, char_to_rank_x]

theorem ne_castle_of_last_ne (W : List Char) (c : Char) (hO : c ≠ 'O') (side : CastlingSide) :
    W ++ [c] ≠ CastlingSide.as_str side := by
  intro heq
  have h2 := congrArg List.reverse heq
  cases side <;> simp [CastlingSide.as_str, List.reverse_append] at h2 <;> exact hO h2.1

theorem file_to_char_oob {v : Nat} (h : 7 < v) : file_to_char v = none := by
  rcases v with _ | _ | _ | _ | _ | _ | _ | _ | w <;> first | omega | rfl

theorem rank_to_char_oob {v : Nat} (h : 7 < v) : rank_to_char v = none := by
  rcases v with _ | _ | _ | _ | _ | _ | _ | _ | w <;> first | omega | rfl

/-- The whole decode grammar applied to the text produced by the encoder for a
well-formed normal move gives that move back. -/
theorem chess_move_encode (k : PieceKind) (fo ro : Option (Fin 8)) (t : Bool)
    (fi ri : Fin 8) (p : Option PieceKind) (a : Option MoveAction)
    (hp : p.all promotable = true) :
    chess_move (piece_str k ++ opt_fin_str file_char fo ++ opt_fin_str rank_char ro
        ++ takes_str t ++ SimpleSquare.as_str ⟨fi, ri⟩ ++ promo_str p ++ action_str a)
      = some (.Normal k (fo.map Fin.val) (ro.map Fin.val) t ⟨fi, ri⟩ p a) := by
  set F : List Char := piece_str k ++ opt_fin_str file_char fo ++ opt_fin_str rank_char ro
    ++ takes_str t with hF
  have h4 := read_front_encode k fo ro t
  rw [← hF] at h4
  cases p with
  | none =>
    have hshape : F ++ SimpleSquare.as_str ⟨fi, ri⟩ ++ promo_str none ++ action_str a
        = ((F ++ [file_char fi]) ++ [rank_char ri]) ++ action_str a := by
      simp [SimpleSquare.as_str, promo_str]
    rw [hshape]
    have h1 := strip_action_app (F ++ [file_char fi]) (rank_char ri)
      (rank_char_ne_plus ri) (rank_char_ne_hash ri) a
    have hq : (F ++ [file_char fi]) ++ [rank_char ri] ≠ CastlingSide.as_str .QueenSide :=
      ne_castle_of_last_ne _ _ (rank_char_ne_O ri) _
    have hk2 : (F ++ [file_char fi]) ++ [rank_char ri] ≠ CastlingSide.as_str .KingSide :=
      ne_castle_of_last_ne _ _ (rank_char_ne_O ri) _
    have h2 : strip_promotion ((F ++ [file_char fi]) ++ [rank_char ri])
        = some ((F ++ [file_char fi]) ++ [rank_char ri], none) := by
      have h := strip_promotion_no_suffix F (file_char fi) (rank_char ri)
        (file_char_ne_eq_sign fi)
      simpa using h
    have h3 : split_square ((F ++ [file_char fi]) ++ [rank_char ri]) = some (F, ⟨fi, ri⟩) := by
      have h := split_square_encode F ⟨fi, ri⟩
      simpa [SimpleSquare.as_str] using h
    unfold chess_move
    rw [h1]
    dsimp only
    rw [if_neg hq, if_neg hk2, h2]
    dsimp only
    rw [h3]
    dsimp only
    rw [h4]
  | some pk =>
    simp only [Option.all] at hp
    have hshape : F ++ SimpleSquare.as_str ⟨fi, ri⟩ ++ promo_str (some pk) ++ action_str a
        = (((F ++ SimpleSquare.as_str ⟨fi, ri⟩) ++ ['=']) ++ [pk.toChar]) ++ action_str a := by
      simp [promo_str]
    rw [hshape]
    have h1 := strip_action_app ((F ++ SimpleSquare.as_str ⟨fi, ri⟩) ++ ['=']) pk.toChar
      (toChar_ne_plus pk) (toChar_ne_hash pk) a
    have hq : ((F ++ SimpleSquare.as_str ⟨fi, ri⟩) ++ ['=']) ++ [pk.toChar]
        ≠ CastlingSide.as_str .QueenSide :=
      ne_castle_of_last_ne _ _ (toChar_ne_O pk) _
    have hk2 : ((F ++ SimpleSquare.as_str ⟨fi, ri⟩) ++ ['=']) ++ [pk.toChar]
        ≠ CastlingSide.as_str .KingSide :=
      ne_castle_of_last_ne _ _ (toChar_ne_O pk) _
    have h2 : strip_promotion (((F ++ SimpleSquare.as_str ⟨fi, ri⟩) ++ ['=']) ++ [pk.toChar])
        = some (F ++ SimpleSquare.as_str ⟨fi, ri⟩, some pk) := by
      have h := strip_promotion_some (F ++ SimpleSquare.as_str ⟨fi, ri⟩) pk hp
      simpa using h
    have h3 : split_square (F ++ SimpleSquare.as_str ⟨fi, ri⟩) = some (F, ⟨fi, ri⟩) :=
      split_square_encode F ⟨fi, ri⟩
    unfold chess_move
    rw [h1]
    dsimp only
    rw [if_neg hq, if_neg hk2, h2]
    dsimp only
    rw [h3]
    dsimp only
    rw [h4]

theorem try_from_error_of_ne {c : Char} (h : ∀ k : PieceKind, c ≠ k.toChar) :
    PieceKind.try_from c = .error (.InvalidPGN [c]) := by
  have hK := h .King
  have hQ := h .Queen
  have hB := h .Bishop
  have hN := h .Knight
  have hR := h .Rook
  have hP := h .Pawn
  simp only [PieceKind.toChar] at hK hQ hB hN hR hP
  simp [PieceKind.try_from, hK, hQ, hB, hN, hR, hP]

theorem try_from_ok_inv {c : Char} {k : PieceKind} (h : PieceKind.try_from c = .ok k) :
    c = k.toChar := by
  by_cases hc : ∀ k' : PieceKind, c ≠ PieceKind.toChar k'
  · rw [try_from_error_of_ne hc] at h
    cases h
  · push_neg at hc
    obtain ⟨k', hk'⟩ := hc
    subst hk'
    rw [show PieceKind.try_from (PieceKind.toChar k') = .ok k' from by cases k' <;> rfl] at h
    injection h with h
    rw [h]

/-! ## Claim theorems -/

/-- C1: for every `AmbiguousMove` value constructible under the §3
field-presence invariants (source indices, when present, in 0–7; promotion
target, when present, promotable), decoding the PGN encoding returns the
original value. -/
theorem pgn_round_trip (v : AmbiguousMove) (h : well_formed v = true) :
    AmbiguousMove.try_from (v.as_pgn_str.getD []) = .ok v := by
  cases v with
  | Castle side => cases side <;> rfl
  | Normal k f r t dest p a =>
    simp only [well_formed, Bool.and_eq_true] at h
    obtain ⟨⟨hf, hr⟩, hp⟩ := h
    obtain ⟨fo, rfl⟩ := opt_nat_to_fin hf
    obtain ⟨ro, rfl⟩ := opt_nat_to_fin hr
    obtain ⟨fi, ri⟩ := dest
    have henc :
        (AmbiguousMove.Normal k (fo.map Fin.val) (ro.map Fin.val) t ⟨fi, ri⟩ p a).as_pgn_str
        = some (piece_str k ++ opt_fin_str file_char fo ++ opt_fin_str rank_char ro
          ++ takes_str t ++ SimpleSquare.as_str ⟨fi, ri⟩ ++ promo_str p ++ action_str a) := by
      rw [AmbiguousMove.as_pgn_str, opt_conv_file, opt_conv_rank]
      rfl
    rw [henc, Option.getD_some]
    unfold AmbiguousMove.try_from
    rw [chess_move_encode k fo ro t fi ri p a hp]

/-- Witness for C1 at the concrete knight capture `Nbxf3` with check. -/
theorem pgn_round_trip_witness :
    well_formed (.Normal .Knight (some 1) none true ⟨5, 2⟩ none (some .Check)) = true
    ∧ AmbiguousMove.try_from
        ((AmbiguousMove.as_pgn_str
          (.Normal .Knight (some 1) none true ⟨5, 2⟩ none (some .Check))).getD [])
      = .ok (.Normal .Knight (some 1) none true ⟨5, 2⟩ none (some .Check)) :=
  ⟨by decide, pgn_round_trip _ (by decide)⟩

/-- C2: decoding is all-or-nothing — every input either yields a move or the
whole decode fails with an invalid-notation error carrying the original input;
in particular an unparseable destination (`Kx9`), an invalid piece letter
(`Ze4`), an invalid promotion letter (`e4=K`) and trailing unconsumed
characters (`Nf3zz`) each fail that way. -/
theorem decode_all_or_nothing :
    (∀ s : List Char, (∃ m, AmbiguousMove.try_from s = .ok m)
      ∨ AmbiguousMove.try_from s = .error (.InvalidPGN s))
    ∧ AmbiguousMove.try_from ['K', 'x', '9'] = .error (.InvalidPGN ['K', 'x', '9'])
    ∧ AmbiguousMove.try_from ['Z', 'e', '4'] = .error (.InvalidPGN ['Z', 'e', '4'])
    ∧ AmbiguousMove.try_from ['e', '4', '=', 'K'] = .error (.InvalidPGN ['e', '4', '=', 'K'])
    ∧ AmbiguousMove.try_from ['N', 'f', '3', 'z', 'z']
        = .error (.InvalidPGN ['N', 'f', '3', 'z', 'z']) := by
  refine ⟨?_, rfl, rfl, rfl, rfl⟩
  intro s
  unfold AmbiguousMove.try_from
  cases h : chess_move s with
  | some m => exact .inl ⟨m, rfl⟩
  | none => exact .inr rfl

/-- C3: the encoder is total over well-formed values — whenever the source
indices present lie in 0–7 the partial coordinate conversions cannot fail,
whatever the other fields hold — while an
out-of-range source file or rank index makes the encode path return the
modelled failure value of the panicking `unwrap` rather than anything
undefined. -/
theorem as_pgn_str_total :
    (∀ v : AmbiguousMove, src_in_range v = true → v.as_pgn_str.isSome = true)
    ∧ (∀ (k : PieceKind) (r : Option Nat) (t : Bool) (dest : SimpleSquare)
        (p : Option PieceKind) (a : Option MoveAction) (v : Nat), 7 < v →
        (AmbiguousMove.Normal k (some v) r t dest p a).as_pgn_str = none)
    ∧ (∀ (k : PieceKind) (f : Option Nat) (t : Bool) (dest : SimpleSquare)
        (p : Option PieceKind) (a : Option MoveAction) (v : Nat), 7 < v →
        (AmbiguousMove.Normal k f (some v) t dest p a).as_pgn_str = none) := by
  refine ⟨?_, ?_, ?_⟩
  · intro v h
    cases v with
    | Castle side => rfl
    | Normal k f r t dest p a =>
      simp only [src_in_range, Bool.and_eq_true] at h
      obtain ⟨hf, hr⟩ := h
      obtain ⟨fo, rfl⟩ := opt_nat_to_fin hf
      obtain ⟨ro, rfl⟩ := opt_nat_to_fin hr
      rw [AmbiguousMove.as_pgn_str, opt_conv_file, opt_conv_rank]
      rfl
  · intro k r t dest p a v hv
    rw [AmbiguousMove.as_pgn_str]
    simp [opt_conv, file_to_char_oob hv]
  · intro k f t dest p a v hv
    rw [AmbiguousMove.as_pgn_str]
    cases hw : opt_conv f file_to_char with
    | none => simp
    | some fs => simp [opt_conv, rank_to_char_oob hv]

/-- Witness for C3: a well-formed move encodes, and file index 9 hits the
failure value. -/
theorem as_pgn_str_total_witness :
    src_in_range (.Castle .KingSide) = true
    ∧ (AmbiguousMove.Castle .KingSide).as_pgn_str.isSome = true
    ∧ 7 < 9
    ∧ (AmbiguousMove.Normal .Queen (some 9) none false ⟨0, 0⟩ none none).as_pgn_str = none :=
  ⟨by decide, as_pgn_str_total.1 _ (by decide), by decide,
    as_pgn_str_total.2.1 .Queen none false ⟨0, 0⟩ none none 9 (by decide)⟩

/-- C4: for every normal move whose source indices present lie in 0–7 the
encoder emits, in exactly this order, the piece letter (omitted if and only if the piece is a pawn), the
source-file character if present, the source-rank character if present, `x` if
the move takes, the destination square text, `=` plus the promotion letter if
present, and the action glyph if present; a castle value encodes to the side's
fixed text verbatim. -/
theorem as_pgn_str_field_order (k : PieceKind) (f r : Option Nat) (t : Bool)
    (dest : SimpleSquare) (p : Option PieceKind) (a : Option MoveAction)
    (h : src_in_range (.Normal k f r t dest p a) = true) :
    AmbiguousMove.as_pgn_str (.Normal k f r t dest p a)
      = some ((if k = .Pawn then [] else [k.toChar])
        ++ (match f with | none => [] | some v => [(file_to_char v).getD 'a'])
        ++ (match r with | none => [] | some v => [(rank_to_char v).getD '1'])
        ++ (if t then ['x'] else [])
        ++ dest.as_str
        ++ (match p with | none => [] | some pk => ['=', pk.toChar])
        ++ (match a with | none => [] | some x => [x.toChar]))
    ∧ ∀ side, AmbiguousMove.as_pgn_str (.Castle side) = some (CastlingSide.as_str side) := by
  refine ⟨?_, fun side => rfl⟩
  simp only [src_in_range, Bool.and_eq_true] at h
  obtain ⟨hf, hr⟩ := h
  obtain ⟨fo, rfl⟩ := opt_nat_to_fin hf
  obtain ⟨ro, rfl⟩ := opt_nat_to_fin hr
  cases fo <;> cases ro <;> cases p <;> cases a <;>
    simp [AmbiguousMove.as_pgn_str, opt_conv, piece_str, takes_str, promo_str, action_str,
      file_to_char_val, rank_to_char_val]

/-- Witness for C4 at the concrete move `Ncxf3`. -/
theorem as_pgn_str_field_order_witness :
    AmbiguousMove.as_pgn_str (.Normal .Knight (some 2) none true ⟨5, 2⟩ none none)
      = some ['N', 'c', 'x', 'f', '3'] := by
  have h := (as_pgn_str_field_order .Knight (some 2) none true ⟨5, 2⟩ none none (by decide)).1
  simpa using h

/-- C5: the `PieceKind` character codec maps the six kinds to `K`, `Q`, `B`,
`N`, `R`, `P`; decoding succeeds exactly on those six characters, inverting
the encoding, and any other character fails with an invalid-notation error
carrying the offending character. -/
theorem piece_kind_char_codec :
    (PieceKind.toChar .King = 'K' ∧ PieceKind.toChar .Queen = 'Q'
      ∧ PieceKind.toChar .Bishop = 'B' ∧ PieceKind.toChar .Knight = 'N'
      ∧ PieceKind.toChar .Rook = 'R' ∧ PieceKind.toChar .Pawn = 'P')
    ∧ (∀ k : PieceKind, PieceKind.try_from k.toChar = .ok k)
    ∧ (∀ (c : Char) (k : PieceKind), PieceKind.try_from c = .ok k → c = k.toChar)
    ∧ (∀ c : Char, (∀ k : PieceKind, c ≠ k.toChar) →
        PieceKind.try_from c = .error (.InvalidPGN [c])) := by
  refine ⟨⟨rfl, rfl, rfl, rfl, rfl, rfl⟩, ?_, ?_, ?_⟩
  · intro k
    cases k <;> rfl
  · intro c k h
    exact try_from_ok_inv h
  · intro c h
    exact try_from_error_of_ne h

/-- Witness for C5 at the non-piece character `z`. -/
theorem piece_kind_char_codec_witness :
    PieceKind.try_from 'z' = .error (.InvalidPGN ['z']) :=
  piece_kind_char_codec.2.2.2 'z' (by decide)

/-- C6: converting a `BoardState` to a `MoveAction` succeeds exactly on
`Check` and `Checkmate`, fails on `Normal` and `Stalemate` with an error
carrying exactly the rejected state, and is the left-inverse of the total
embedding of actions into states. -/
theorem state_to_action_codec :
    MoveAction.try_from .Normal = .error (.NotAction .Normal)
    ∧ MoveAction.try_from .Stalemate = .error (.NotAction .Stalemate)
    ∧ MoveAction.try_from .Check = .ok .Check
    ∧ MoveAction.try_from .Checkmate = .ok .Checkmate
    ∧ ∀ a : MoveAction, MoveAction.try_from (BoardState.from_action a) = .ok a :=
  ⟨rfl, rfl, rfl, rfl, fun a => by cases a <;> rfl⟩

/-- C7: the action glyph mapping is total, sends `Check` to `+` and
`Checkmate` to `#`, produces each glyph only for its action, and produces no
other character. -/
theorem action_to_char_glyphs :
    MoveAction.toChar .Check = '+'
    ∧ MoveAction.toChar .Checkmate = '#'
    ∧ (∀ a : MoveAction, MoveAction.toChar a = '+' → a = .Check)
    ∧ (∀ a : MoveAction, MoveAction.toChar a = '#' → a = .Checkmate)
    ∧ (∀ a : MoveAction, MoveAction.toChar a = '+' ∨ MoveAction.toChar a = '#') := by
  refine ⟨rfl, rfl, fun a => ?_, fun a => ?_, fun a => ?_⟩ <;> cases a <;> decide

/-- Witness for C7: the glyph `+` pins down `Check`. -/
theorem action_to_char_glyphs_witness : MoveAction.Check = .Check :=
  action_to_char_glyphs.2.2.1 .Check rfl

/-- C8: the castling texts are exactly `O-O` and `O-O-O`, queen-side strictly
extending king-side, and decoding resolves each text to the right side —
`O-O-O` is not read as `O-O` plus garbage and `O-O` is not rejected as a
truncated queen-side castle. -/
theorem castling_text_longest_match :
    CastlingSide.as_str .KingSide = ['O', '-', 'O']
    ∧ CastlingSide.as_str .QueenSide = ['O', '-', 'O', '-', 'O']
    ∧ CastlingSide.as_str .QueenSide = CastlingSide.as_str .KingSide ++ ['-', 'O']
    ∧ AmbiguousMove.try_from ['O', '-', 'O', '-', 'O'] = .ok (.Castle .QueenSide)
    ∧ AmbiguousMove.try_from ['O', '-', 'O'] = .ok (.Castle .KingSide) :=
  ⟨rfl, rfl, rfl, rfl, rfl⟩

/-- C9: the `Display` rendering of an `AmbiguousMove` coincides with its PGN
encoding. -/
theorem display_is_pgn (m : AmbiguousMove) : m.fmt_display = m.as_pgn_str := rfl

/-- C10: the derived total orderings are declaration-order — Black < White;
Normal < Check < Stalemate < Checkmate; King < Queen < Bishop < Knight < Rook
< Pawn; Check < Checkmate; KingSide < QueenSide. -/
theorem derived_orderings_declaration_order :
    PieceColour.ord_val .Black < PieceColour.ord_val .White
    ∧ (BoardState.ord_val .Normal < BoardState.ord_val .Check
        ∧ BoardState.ord_val .Check < BoardState.ord_val .Stalemate
        ∧ BoardState.ord_val .Stalemate < BoardState.ord_val .Checkmate)
    ∧ (PieceKind.ord_val .King < PieceKind.ord_val .Queen
        ∧ PieceKind.ord_val .Queen < PieceKind.ord_val .Bishop
        ∧ PieceKind.ord_val .Bishop < PieceKind.ord_val .Knight
        ∧ PieceKind.ord_val .Knight < PieceKind.ord_val .Rook
        ∧ PieceKind.ord_val .Rook < PieceKind.ord_val .Pawn)
    ∧ MoveAction.ord_val .Check < MoveAction.ord_val .Checkmate
    ∧ CastlingSide.ord_val .KingSide < CastlingSide.ord_val .QueenSide := by
  decide
